import Mathlib

/-!
# Verification of the `loggerfx` dual-sink logging subsystem

Shallow embedding of `src/loggerfx/loggerfx.go` (package `loggerfx` of
`prismedic/arsenal`) together with the parts of its external collaborators
(`go.uber.org/zap`, `go.uber.org/zap/zapcore`, `github.com/fatih/color`,
Go's `path` package) that the claims depend on.  Each Lean definition's doc
comment names the Go source it embeds.
-/

namespace Loggerfx

/-! ## zapcore levels

`zapcore.Level` is an `int8` with the named constants
`DebugLevel = -1, InfoLevel = 0, WarnLevel = 1, ErrorLevel = 2,
DPanicLevel = 3, PanicLevel = 4, FatalLevel = 5`.  We embed it as `Int`
(the `int8` range is never exceeded by any value the program builds, so no
wraparound modelling is needed).  A `LevelEnabler` built from a bare level
`t` enables an event of level `l` iff `l >= t` (zapcore `Level.Enabled`). -/

def zapDebugLevel : Int := -1

/-- zapcore `InfoLevel` (the zero value of `zapcore.Level`). -/
def zapInfoLevel : Int := 0

def zapWarnLevel : Int := 1

def zapErrorLevel : Int := 2

def zapDPanicLevel : Int := 3

def zapPanicLevel : Int := 4

def zapFatalLevel : Int := 5

/-- zapcore `Level.Enabled`: `func (l Level) Enabled(lvl Level) bool { return lvl >= l }`.
The receiver is the threshold, the argument the event level. -/
def levelEnabled (threshold eventLevel : Int) : Bool := threshold ≤ eventLevel

/-- The seven levels of the vocabulary, in the order of the severity chain. -/
def vocabularyLevels : List Int :=
  [zapDebugLevel, zapInfoLevel, zapWarnLevel, zapErrorLevel,
   zapDPanicLevel, zapPanicLevel, zapFatalLevel]

/-- zapcore `Level.String()` restricted to the seven named constants
(`"debug"`, `"info"`, … as in zapcore's `String` switch).  Levels outside
the named range render as `LEVEL(%d)` in zapcore; the program never asks
for those, and `logLevelMap`'s keys are exactly the seven named strings. -/
def levelString (l : Int) : String :=
  if l = zapDebugLevel then "debug"
  else if l = zapInfoLevel then "info"
  else if l = zapWarnLevel then "warn"
  else if l = zapErrorLevel then "error"
  else if l = zapDPanicLevel then "dpanic"
  else if l = zapPanicLevel then "panic"
  else if l = zapFatalLevel then "fatal"
  else "LEVEL(" ++ toString l ++ ")"

/-! ## The level map and the validator (loggerfx.go lines 36–62) -/

/-- `type LogLevel string` (loggerfx.go line 36). -/
abbrev LogLevel := String

/-- `var logLevelMap = map[LogLevel]zapcore.Level{...}` (loggerfx.go lines
48–56), embedded as an association list keyed by the `String()` of each
level constant (lines 39–45 define `DebugLevel = LogLevel(zapcore.DebugLevel.String())`, etc.). -/
def logLevelMap : List (LogLevel × Int) :=
  [(levelString zapDebugLevel, zapDebugLevel),
   (levelString zapInfoLevel, zapInfoLevel),
   (levelString zapWarnLevel, zapWarnLevel),
   (levelString zapErrorLevel, zapErrorLevel),
   (levelString zapDPanicLevel, zapDPanicLevel),
   (levelString zapPanicLevel, zapPanicLevel),
   (levelString zapFatalLevel, zapFatalLevel)]

/-- Go map lookup `v, ok := logLevelMap[k]` — the `Option` carries `ok`. -/
def logLevelMapLookup (k : LogLevel) : Option Int :=
  logLevelMap.lookup k

/-- Go map read `logLevelMap[k]` without the `ok` flag: a missing key
yields the zero value of `zapcore.Level`, which is `0` (= `InfoLevel`). -/
def logLevelMapGet (k : LogLevel) : Int :=
  (logLevelMapLookup k).getD 0

/-- `func validateLogLevel(fieldLevel validator.FieldLevel) bool`
(loggerfx.go lines 58–62): reads the field's string value and reports
whether it is a key of `logLevelMap`.  The `validator.FieldLevel`
machinery only supplies the string, so the embedding takes the string. -/
def validateLogLevel (logLevel : String) : Bool :=
  (logLevelMapLookup logLevel).isSome

/-- The seven canonical level names, in severity order. -/
def canonicalLevelNames : List String :=
  ["debug", "info", "warn", "error", "dpanic", "panic", "fatal"]

/-! ## Colors and the console level encoder (loggerfx.go lines 102–114) -/

/-- Modelled from the spec: the five color values `DebugColor`, `InfoColor`,
`WarnColor`, `ErrorColor`, `FatalColor` imported from the external
`github.com/prismedic/scalpel/logger` package (whose source is not part of
this repository).  Per §4.2 of the spec they are distinct color classes, with
`panic`/`fatal`/`dpanic` sharing the single "fatal" class; the five values are
therefore modelled as the five constructors of an enumeration. -/
inductive Color where
  | debugColor
  | infoColor
  | warnColor
  | errorColor
  | fatalColor
deriving DecidableEq

/-- zapcore `Level.CapitalString()`: the upper-case name for the seven named
constants, `fmt.Sprintf("LEVEL(%d)", l)` otherwise. -/
def capitalString (l : Int) : String :=
  if l = zapDebugLevel then "DEBUG"
  else if l = zapInfoLevel then "INFO"
  else if l = zapWarnLevel then "WARN"
  else if l = zapErrorLevel then "ERROR"
  else if l = zapDPanicLevel then "DPANIC"
  else if l = zapPanicLevel then "PANIC"
  else if l = zapFatalLevel then "FATAL"
  else "LEVEL(" ++ toString l ++ ")"

/-- `colorMap := map[zapcore.Level]*color.Color{...}` (loggerfx.go lines
102–110), in the entry order of the source literal. -/
def colorMap : List (Int × Color) :=
  [(zapDebugLevel, .debugColor),
   (zapInfoLevel, .infoColor),
   (zapWarnLevel, .warnColor),
   (zapErrorLevel, .errorColor),
   (zapDPanicLevel, .fatalColor),
   (zapFatalLevel, .fatalColor),
   (zapPanicLevel, .fatalColor)]

/-- Go map read `colorMap[l]`: `some` the stored pointer when `l` is a key,
`none` for the zero value — a nil `*color.Color` — otherwise. -/
def colorMapGet (l : Int) : Option Color :=
  colorMap.lookup l

/-- The custom `EncodeLevel` closure (loggerfx.go lines 111–114):
`pae.AppendString(colorMap[l].Sprintf("[%s]", l.CapitalString()))`.
The appended string is the `[LEVEL]` tag rendered in the looked-up color,
modelled as the pair (color, tag).  When `l` is not a key of `colorMap` the
map read yields a nil pointer and `Sprintf` dereferences it — the `none`
result models that panic. -/
def consoleEncodeLevel (l : Int) : Option (Color × String) :=
  (colorMapGet l).map fun c => (c, "[" ++ capitalString l ++ "]")

/-! ## The logger configuration and the factory (loggerfx.go lines 64–130) -/

/-- `LoggerConfig.File` (loggerfx.go lines 65–68). -/
structure FileConfig where
  level : LogLevel
  path : String
deriving DecidableEq

/-- `LoggerConfig.Console` (loggerfx.go lines 69–71). -/
structure ConsoleConfig where
  level : LogLevel
deriving DecidableEq

/-- `type LoggerConfig struct` with nested `File` and `Console` sub-structs
(loggerfx.go lines 64–72).  Validation tags live on the fields; `New` itself
never reads them. -/
structure LoggerConfig where
  file : FileConfig
  console : ConsoleConfig
deriving DecidableEq

/-- A Go `error` value: its `Error()` message and the cause recoverable by
`errors.Unwrap` (set by `fmt.Errorf` with the `%w` verb). -/
inductive GoError where
  | mk (msg : String) (wrapped : Option GoError)

def GoError.msg : GoError → String
  | .mk m _ => m

def GoError.wrapped : GoError → Option GoError
  | .mk _ w => w

/-- `fmt.Errorf("error in creating log file folder for writing: %w", err)`
(loggerfx.go line 86): the `%w` verb formats the cause's message into the
text and records the cause for `errors.Unwrap`. -/
def wrapDirError (cause : GoError) : GoError :=
  .mk ("error in creating log file folder for writing: " ++ cause.msg) (some cause)

/-- Go `path.Join(dir, file)` (loggerfx.go line 91) on an already-clean
directory path: empty elements are dropped, otherwise the elements are
joined with `/` (the general function additionally cleans the result, which
is the identity on the clean paths the claims use). -/
def pathJoin (dir file : String) : String :=
  if dir = "" then file else dir ++ "/" ++ file

/-- How a sink encodes the entry's timestamp: `zap.NewProductionEncoderConfig`
leaves `EpochTimeEncoder`; the console config overrides it with
`zapcore.RFC3339TimeEncoder` (loggerfx.go line 115). -/
inductive TimeEncoderKind where
  | epoch
  | rfc3339
deriving DecidableEq

/-- How a sink encodes the entry's caller: the production default
`ShortCallerEncoder`, or the custom closure appending `ec.TrimmedPath()`
(loggerfx.go lines 116–119). -/
inductive CallerEncoderKind where
  | short
  | trimmedPath
deriving DecidableEq

/-- How a sink encodes the entry's level: the production default
`LowercaseLevelEncoder`, or the custom colored `[LEVEL]` closure
(loggerfx.go lines 111–114). -/
inductive LevelEncoderKind where
  | lowercase
  | colorBracket
deriving DecidableEq

/-- The encoder-configuration fields of `zapcore.EncoderConfig` the program
sets or relies on. -/
structure EncoderConfig where
  timeEncoder : TimeEncoderKind
  callerEncoder : CallerEncoderKind
  levelEncoder : LevelEncoderKind
deriving DecidableEq

/-- `zap.NewProductionEncoderConfig()`: `EpochTimeEncoder`,
`ShortCallerEncoder`, `LowercaseLevelEncoder` (zapcore defaults). -/
def productionEncoderConfig : EncoderConfig :=
  { timeEncoder := .epoch, callerEncoder := .short, levelEncoder := .lowercase }

/-- Whether the encoder emits JSON records (`zapcore.NewJSONEncoder`) or
human-readable console lines (`zapcore.NewConsoleEncoder`). -/
inductive EncoderKind where
  | json
  | console
deriving DecidableEq

/-- The `WriteSyncer` a core writes to: the lumberjack rotating file writer
(by file name), or `zapcore.Lock(os.Stderr)` — standard error wrapped in a
mutex. -/
inductive Stream where
  | rotatedFile (filename : String)
  | stderrLocked
deriving DecidableEq

/-- One `zapcore.Core` as built by `zapcore.NewCore(enc, ws, enab)`. -/
structure Core where
  encoder : EncoderKind
  encoderConfig : EncoderConfig
  sink : Stream
  threshold : Int
deriving DecidableEq

/-- The handle `zap.New(core, zap.AddCaller()).Sugar()` returns: the tee of
the two cores (file first, console second, the `zapcore.NewTee` argument
order) plus the `AddCaller` option. -/
structure ZapLogger where
  fileCore : Core
  consoleCore : Core
  addCaller : Bool
deriving DecidableEq

/-- `func New(config *LoggerConfig) (*zap.SugaredLogger, error)` (loggerfx.go
lines 82–130).  Its one effect, `os.MkdirAll(config.File.Path, os.ModePerm)`,
is reified as the parameter `mkdirAll` carrying the result the filesystem
returns for that call; the rest of the body is the pure construction the
source performs, in source order.  On a `MkdirAll` error the function
returns the wrapped error at once — the file writer, levels, encoders and
cores of the `.ok` branch are never built. -/
def New (mkdirAll : Except GoError Unit) (config : LoggerConfig) :
    Except GoError ZapLogger :=
  match mkdirAll with
  | .error err => .error (wrapDirError err)
  | .ok () =>
    let fileWriter : Stream := .rotatedFile (pathJoin config.file.path "server.log")
    let fileLogLevel : Int := logLevelMapGet config.file.level
    let consoleLogLevel : Int := logLevelMapGet config.console.level
    let fileEncoderConfig := productionEncoderConfig
    let consoleEncoderConfig :=
      { productionEncoderConfig with
          levelEncoder := .colorBracket
          timeEncoder := .rfc3339
          callerEncoder := .trimmedPath }
    .ok
      { fileCore :=
          { encoder := .json
            encoderConfig := fileEncoderConfig
            sink := fileWriter
            threshold := fileLogLevel }
        consoleCore :=
          { encoder := .console
            encoderConfig := consoleEncoderConfig
            sink := .stderrLocked
            threshold := consoleLogLevel }
        addCaller := true }

/-- The caller-observable outcome of one log call on the handle built by
`New`.  `zap.Logger`'s leveled methods return nothing: `CheckedEntry.Write`
calls every registered core's `Write`, collects their errors with
`multierr` and routes the combined error to the logger's internal error
output, so the call site sees no error.  The console encoder can only
panic through the nil-color `Sprintf` dereference (see
`consoleEncodeLevel`). -/
structure LogCallOutcome where
  fileWrote : Bool
  consoleWrote : Bool
  panicked : Bool
  callerVisibleError : Option GoError

/-- One leveled call on the sugared handle, with the current health of each
sink's underlying writer reified (`fileHealthy` / `consoleHealthy`: whether
that writer's `Write` currently succeeds).  Each core that enables the
event's level attempts its own write independently (`multiCore.Write`
iterates over all cores unconditionally); a failing write yields an
internal error, never a panic and never a caller-visible error. -/
def logCall (l : ZapLogger) (fileHealthy consoleHealthy : Bool) (lvl : Int) :
    LogCallOutcome :=
  let fileEnabled := levelEnabled l.fileCore.threshold lvl
  let consoleEnabled := levelEnabled l.consoleCore.threshold lvl
  { fileWrote := fileEnabled && fileHealthy
    consoleWrote := consoleEnabled && consoleHealthy
    panicked := consoleEnabled && (consoleEncodeLevel lvl).isNone
    callerVisibleError := none }

/-- A sequence of log calls: which console writes happen, with the file
writer's health allowed to change per call (`fileHealth` gives the health
at each call index). -/
def consoleWrites (l : ZapLogger) (fileHealth : Nat → Bool) (events : List Int) :
    List Bool :=
  events.enum.map fun p => (logCall l (fileHealth p.1) true p.2).consoleWrote

/-- One log call on the tee: `zapcore.multiCore.Check` asks each sub-core
whether the event's level is enabled there (`Level.Enabled`) and
`CheckedEntry.Write` writes to exactly the cores that accepted — the two
sinks filter independently.  Returns (delivered to file, delivered to
console). -/
def teeDelivers (l : ZapLogger) (eventLevel : Int) : Bool × Bool :=
  (levelEnabled l.fileCore.threshold eventLevel,
   levelEnabled l.consoleCore.threshold eventLevel)

/-! ## The file sink's JSON record (zapcore `jsonEncoder`, production config)

`zapcore.NewJSONEncoder(zap.NewProductionEncoderConfig())` (loggerfx.go
lines 99–100) emits, for an entry with no extra fields and no stacktrace,
one line `\x7b"level":…,"ts":…,"caller":…,"msg":…\x7d` followed by the
default line ending `\n` — the key set, key order and escaping below follow
zapcore's `jsonEncoder.EncodeEntry` and `safeAddString`. -/

/-- A digit of zapcore's hex table `_hex = "0123456789abcdef"`. -/
def hexDigit (n : Nat) : Char :=
  if n < 10 then Char.ofNat (48 + n) else Char.ofNat (87 + n)

/-- Reading one hex digit back (a JSON reader's `\uXXXX` decoding). -/
def unhex (c : Char) : Option Nat :=
  if '0' ≤ c ∧ c ≤ '9' then some (c.toNat - 48)
  else if 'a' ≤ c ∧ c ≤ 'f' then some (c.toNat - 87)
  else none

/-- zapcore `jsonEncoder.safeAddString`, per rune: `"` and `\` are
backslash-escaped, `\n`, `\r`, `\t` get their short escapes, the remaining
control bytes below `0x20` become `\u00` plus two hex digits, and every
other rune is appended as itself. -/
def escapeChar (c : Char) : List Char :=
  if c = '"' then ['\\', '"']
  else if c = '\\' then ['\\', '\\']
  else if c = '\n' then ['\\', 'n']
  else if c = '\r' then ['\\', 'r']
  else if c = '\t' then ['\\', 't']
  else if c.toNat < 32 then
    ['\\', 'u', '0', '0', hexDigit (c.toNat / 16), hexDigit (c.toNat % 16)]
  else [c]

/-- `safeAddString` over a whole string. -/
def escapeString (s : String) : List Char :=
  (s.data.map escapeChar).flatten

/-- zapcore `AddString`: the escaped text between double quotes. -/
def jsonQuoted (s : String) : String :=
  "\"" ++ String.mk (escapeString s) ++ "\""

/-- One log event as the file sink's JSON encoder receives it: the entry
level, the text `AppendFloat64` produced for the epoch-seconds timestamp
(the production config's `EpochTimeEncoder`; the float-to-decimal
conversion itself is outside the embedding, so the record carries its
output text), the caller as rendered by the production
`ShortCallerEncoder`, and the message. -/
structure FileLogEntry where
  level : Int
  tsText : String
  caller : String
  msg : String

/-- The braces-to-brace part of `jsonEncoder.EncodeEntry` under the
production keys: `"level"` (via `LowercaseLevelEncoder`, i.e.
`Level.String()`), `"ts"`, `"caller"` (present because `AddCaller` makes
the entry's caller defined), `"msg"`, in encoder order. -/
def jsonEntryBody (e : FileLogEntry) : String :=
  "\x7b\"level\":" ++ jsonQuoted (levelString e.level)
    ++ ",\"ts\":" ++ e.tsText
    ++ ",\"caller\":" ++ jsonQuoted e.caller
    ++ ",\"msg\":" ++ jsonQuoted e.msg
    ++ "\x7d"

/-- `EncodeEntry` then appends the configured line ending (default `\n`):
one JSON line per log event. -/
def jsonEncodeEntry (e : FileLogEntry) : String :=
  jsonEntryBody e ++ "\n"

/-! ### A JSON reader for the record -/

/-- Match an expected literal piece of the record skeleton, returning the
remaining input. -/
def expect : List Char → List Char → Option (List Char)
  | [], input => some input
  | _ :: _, [] => none
  | p :: ps, c :: cs => if c = p then expect ps cs else none

/-- A JSON string body reader: consumes up to the closing quote, decoding
the escapes `safeAddString` can emit, and returns the decoded text and the
input after the quote. -/
def parseJSONString : List Char → Option (List Char × List Char)
  | [] => none
  | c :: rest =>
    if c = '"' then some ([], rest)
    else if c = '\\' then
      match rest with
      | [] => none
      | e :: rest2 =>
        if e = '"' then (parseJSONString rest2).map fun p => ('"' :: p.1, p.2)
        else if e = '\\' then (parseJSONString rest2).map fun p => ('\\' :: p.1, p.2)
        else if e = 'n' then (parseJSONString rest2).map fun p => ('\n' :: p.1, p.2)
        else if e = 'r' then (parseJSONString rest2).map fun p => ('\r' :: p.1, p.2)
        else if e = 't' then (parseJSONString rest2).map fun p => ('\t' :: p.1, p.2)
        else if e = 'u' then
          match rest2 with
          | h1 :: h2 :: h3 :: h4 :: rest3 =>
            match unhex h1, unhex h2, unhex h3, unhex h4 with
            | some a, some b, some x, some d =>
              (parseJSONString rest3).map fun p =>
                (Char.ofNat (((a * 16 + b) * 16 + x) * 16 + d) :: p.1, p.2)
            | _, _, _, _ => none
          | _ => none
        else none
    else (parseJSONString rest).map fun p => (c :: p.1, p.2)

/-- The characters Go's formatting of a finite float64 can emit. -/
def numeralChar (c : Char) : Bool :=
  c.isDigit || c = '.' || c = '-' || c = '+' || c = 'e' || c = 'E'

/-- A JSON reader's number token: the maximal numeral-character run. -/
def readNumber (input : List Char) : List Char × List Char :=
  (input.takeWhile numeralChar, input.dropWhile numeralChar)

/-- Parse one file-sink record back into its four fields
`(level name, ts text, caller, msg)`. -/
def parseFileRecord (line : String) : Option (String × String × String × String) := do
  let i0 ← expect "\x7b\"level\":\"".data line.data
  let (lvl, i1) ← parseJSONString i0
  let i2 ← expect ",\"ts\":".data i1
  let (ts, i3) := readNumber i2
  let i4 ← expect ",\"caller\":\"".data i3
  let (cal, i5) ← parseJSONString i4
  let i6 ← expect ",\"msg\":\"".data i5
  let (msg, i7) ← parseJSONString i6
  let i8 ← expect "\x7d\n".data i7
  match i8 with
  | [] => some (String.mk lvl, String.mk ts, String.mk cal, String.mk msg)
  | _ :: _ => none

/-! ## Console rendering collaborators (zapcore, loggerfx.go lines 111–120)

The console encoder config overrides three encoders: the colored `[LEVEL]`
closure (modelled above), `zapcore.RFC3339TimeEncoder` and a closure
appending `EntryCaller.TrimmedPath()`. -/

/-- `strings.LastIndexByte(s, '/')`: the index of the last `/`, `none` for
Go's `-1`. -/
def lastSlashIdx : List Char → Option Nat
  | [] => none
  | c :: cs =>
    match lastSlashIdx cs with
    | some i => some (i + 1)
    | none => if c = '/' then some 0 else none

/-- zapcore `EntryCaller.FullPath()`: `file + ":" + line`. -/
def entryCallerFullPath (file : String) (line : Nat) : String :=
  file ++ ":" ++ toString line

/-- zapcore `EntryCaller.TrimmedPath()`: everything after the
second-to-last `/` of the file path, then `":"` and the line; the full
path when the file has fewer than two slashes. -/
def trimmedPath (file : String) (line : Nat) : String :=
  match lastSlashIdx file.data with
  | none => entryCallerFullPath file line
  | some idx =>
    match lastSlashIdx (file.data.take idx) with
    | none => entryCallerFullPath file line
    | some idx2 => String.mk (file.data.drop (idx2 + 1)) ++ ":" ++ toString line

/-- A wall-clock instant as `time.Time` presents it to `Format`, already
broken down in its location (the program renders with layout
`time.RFC3339`; the UTC case is modelled, where the offset renders as
`Z`). -/
structure DateTime where
  year : Nat
  month : Nat
  day : Nat
  hour : Nat
  minute : Nat
  second : Nat

/-- A zero-padded two-digit field of Go's time formatting. -/
def pad2 (n : Nat) : List Char :=
  [Char.ofNat (48 + n / 10 % 10), Char.ofNat (48 + n % 10)]

/-- A zero-padded four-digit field (the year). -/
def pad4 (n : Nat) : List Char :=
  [Char.ofNat (48 + n / 1000 % 10), Char.ofNat (48 + n / 100 % 10),
   Char.ofNat (48 + n / 10 % 10), Char.ofNat (48 + n % 10)]

/-- `zapcore.RFC3339TimeEncoder` for a UTC instant: `t.Format(time.RFC3339)`
with layout `2006-01-02T15:04:05Z07:00`. -/
def rfc3339UTC (t : DateTime) : String :=
  String.mk (pad4 t.year ++ '-' :: pad2 t.month ++ '-' :: pad2 t.day
    ++ 'T' :: pad2 t.hour ++ ':' :: pad2 t.minute ++ ':' :: pad2 t.second ++ ['Z'])

/-! ## The locked console stream under concurrency (loggerfx.go line 126)

`zapcore.Lock(os.Stderr)` wraps standard error in a `lockedWriteSyncer`:
its `Write` takes the mutex, writes the whole encoded line to the
underlying stream, and releases.  The step relation below describes any
interleaving of concurrent log calls under that mutex; the underlying
stream receives characters one at a time, so only the held lock keeps the
chunks of different writers from interleaving. -/

/-- A configuration of concurrent console writers: the lines each writer
still has to emit, the writer currently inside the locked `Write`
(its index, the line it is writing and the characters of it not yet
flushed), and the characters the stream has received so far. -/
structure ConsoleRun where
  pending : List (List String)
  holding : Option (Nat × String × List Char)
  output : List Char

/-- One scheduler step: a writer enters the locked `Write` with its next
line (only when no one holds the mutex), the holder flushes its next
character to the stream, or the holder finishes and releases the mutex. -/
inductive ConsoleStep : ConsoleRun → ConsoleRun → Prop where
  | acquire (s : ConsoleRun) (i : Nat) (m : String) (rest : List String)
      (hfree : s.holding = none) (hget : s.pending.get? i = some (m :: rest)) :
      ConsoleStep s ⟨s.pending.set i rest, some (i, m, m.data), s.output⟩
  | write (s : ConsoleRun) (i : Nat) (m : String) (c : Char) (cs : List Char)
      (hh : s.holding = some (i, m, c :: cs)) :
      ConsoleStep s ⟨s.pending, some (i, m, cs), s.output ++ [c]⟩
  | release (s : ConsoleRun) (i : Nat) (m : String)
      (hh : s.holding = some (i, m, [])) :
      ConsoleStep s ⟨s.pending, none, s.output⟩

/-- Any number of steps. -/
def ConsoleReachable : ConsoleRun → ConsoleRun → Prop :=
  Relation.ReflTransGen ConsoleStep

/-- The stream content after a sequence of whole lines. -/
def flatStrings (done : List String) : List Char :=
  (done.map String.data).flatten

/-- Invariant of the locked stream: the output is a concatenation of
finished whole lines followed by the flushed prefix of the holder's line,
and no line is lost or duplicated. -/
def ConsoleInv (orig : List String) (s : ConsoleRun) : Prop :=
  ∃ done : List String,
    match s.holding with
    | none =>
        s.output = flatStrings done ∧ (done ++ s.pending.flatten).Perm orig
    | some (_, m, rem) =>
        ∃ pre, m.data = pre ++ rem
          ∧ s.output = flatStrings done ++ pre
          ∧ (done ++ m :: s.pending.flatten).Perm orig

end Loggerfx

namespace Loggerfx

/-! ## Theorems on the validator -/

theorem logLevelMap_keys :
    logLevelMap.map Prod.fst = canonicalLevelNames := by
  decide

@[simp] theorem levelString_debug : levelString zapDebugLevel = "debug" := by decide

@[simp] theorem levelString_info : levelString zapInfoLevel = "info" := by decide

@[simp] theorem levelString_warn : levelString zapWarnLevel = "warn" := by decide

@[simp] theorem levelString_error : levelString zapErrorLevel = "error" := by decide

@[simp] theorem levelString_dpanic : levelString zapDPanicLevel = "dpanic" := by decide

@[simp] theorem levelString_panic : levelString zapPanicLevel = "panic" := by decide

@[simp] theorem levelString_fatal : levelString zapFatalLevel = "fatal" := by decide

theorem logLevelMap_eval :
    logLevelMap = [("debug", (-1 : Int)), ("info", 0), ("warn", 1), ("error", 2),
      ("dpanic", 3), ("panic", 4), ("fatal", 5)] := by
  decide

/-- A level string the validator rejects is not a key of the map, so the Go
map read falls back to the zero value `0`. -/
theorem logLevelMapGet_of_invalid (s : String) (h : validateLogLevel s = false) :
    logLevelMapGet s = 0 := by
  unfold validateLogLevel at h
  unfold logLevelMapGet
  cases hl : logLevelMapLookup s with
  | none => rfl
  | some v => rw [hl] at h; simp at h

/-- C2: the rule `"loglevel"` accepts exactly the seven canonical names. -/
theorem validateLogLevel_iff_canonical (s : String) :
    validateLogLevel s = true ↔ s ∈ canonicalLevelNames := by
  simp only [validateLogLevel, logLevelMapLookup, logLevelMap_eval, canonicalLevelNames,
    List.lookup, List.mem_cons, List.not_mem_nil, or_false]
  repeat' split <;> simp_all

/-! ## Theorems on the factory and delivery -/

/-- C1: an event is delivered to a sink iff its level is ≥ that sink's
threshold under the total order debug < info < warn < error < dpanic <
panic < fatal, the two thresholds applied independently; with
`File.Level = "error"` and `Console.Level = "debug"`, an info event is
delivered to the console sink and not to the file sink. -/
theorem delivered_iff_level_ge_threshold (cfg : LoggerConfig) (logger : ZapLogger)
    (lvl : Int) (hnew : New (.ok ()) cfg = .ok logger) :
    ((teeDelivers logger lvl).1 = true ↔ logLevelMapGet cfg.file.level ≤ lvl)
    ∧ ((teeDelivers logger lvl).2 = true ↔ logLevelMapGet cfg.console.level ≤ lvl)
    ∧ (zapDebugLevel < zapInfoLevel ∧ zapInfoLevel < zapWarnLevel
       ∧ zapWarnLevel < zapErrorLevel ∧ zapErrorLevel < zapDPanicLevel
       ∧ zapDPanicLevel < zapPanicLevel ∧ zapPanicLevel < zapFatalLevel)
    ∧ (cfg.file.level = "error" → cfg.console.level = "debug" → lvl = zapInfoLevel →
       (teeDelivers logger lvl).2 = true ∧ (teeDelivers logger lvl).1 = false) := by
  simp only [New, Except.ok.injEq] at hnew
  subst hnew
  refine ⟨?_, ?_, by decide, ?_⟩
  · simp [teeDelivers, levelEnabled]
  · simp [teeDelivers, levelEnabled]
  · intro h1 h2 h3
    subst h3
    rw [h1, h2]
    exact ⟨rfl, rfl⟩

/-- Witness for C1: the spec's concrete scenario. -/
theorem delivered_iff_level_ge_threshold_witness :
    ∃ logger, New (.ok ()) ⟨⟨"error", "/var/log/app"⟩, ⟨"debug"⟩⟩ = .ok logger
      ∧ (teeDelivers logger zapInfoLevel).2 = true
      ∧ (teeDelivers logger zapInfoLevel).1 = false := by
  refine ⟨_, rfl, ?_⟩
  exact (delivered_iff_level_ge_threshold _ _ zapInfoLevel rfl).2.2.2 rfl rfl rfl

/-- C3: `New` attempts directory creation first; on failure it returns an
error that describes the failure and wraps the underlying cause, it never
panics (the embedding is a total function), and no sink is constructed —
the error branch returns before the file writer or either core is built,
so the result carries no logger at all. -/
theorem new_mkdir_failure (cause : GoError) (cfg : LoggerConfig) :
    New (.error cause) cfg = .error (wrapDirError cause)
    ∧ (∀ logger, New (.error cause) cfg ≠ .ok logger)
    ∧ (wrapDirError cause).wrapped = some cause
    ∧ (wrapDirError cause).msg
        = "error in creating log file folder for writing: " ++ cause.msg := by
  refine ⟨rfl, ?_, rfl, rfl⟩
  intro logger h
  simp [New] at h

/-- C5: each of the seven levels renders as a distinct deterministic
`[LEVEL]` tag (capitalized name in brackets); the seven-entry color map
sends dpanic, panic and fatal to the single fatal color class and debug,
info, warn and error to four further colors, the five classes pairwise
distinct. -/
theorem console_tags_distinct_and_colors :
    (vocabularyLevels.map fun l => "[" ++ capitalString l ++ "]")
        = ["[DEBUG]", "[INFO]", "[WARN]", "[ERROR]", "[DPANIC]", "[PANIC]", "[FATAL]"]
    ∧ (vocabularyLevels.map fun l => "[" ++ capitalString l ++ "]").Pairwise (· ≠ ·)
    ∧ colorMap.length = 7
    ∧ consoleEncodeLevel zapDebugLevel = some (.debugColor, "[DEBUG]")
    ∧ consoleEncodeLevel zapInfoLevel = some (.infoColor, "[INFO]")
    ∧ consoleEncodeLevel zapWarnLevel = some (.warnColor, "[WARN]")
    ∧ consoleEncodeLevel zapErrorLevel = some (.errorColor, "[ERROR]")
    ∧ consoleEncodeLevel zapDPanicLevel = some (.fatalColor, "[DPANIC]")
    ∧ consoleEncodeLevel zapPanicLevel = some (.fatalColor, "[PANIC]")
    ∧ consoleEncodeLevel zapFatalLevel = some (.fatalColor, "[FATAL]")
    ∧ ([Color.debugColor, .infoColor, .warnColor, .errorColor, .fatalColor]
        : List Color).Pairwise (· ≠ ·) := by
  decide

/-- C9: `New` returns an error iff the reified `MkdirAll` call failed — it
performs no level validation — and for a sink whose configured level string
the validator rejects, the silent Go map fallback makes that sink's
effective threshold `0 = InfoLevel`. -/
theorem new_error_iff_mkdir_fails (mk : Except GoError Unit) (cfg : LoggerConfig) :
    ((∃ l, New mk cfg = .ok l) ↔ mk = .ok ())
    ∧ ∀ logger, New (.ok ()) cfg = .ok logger →
        (validateLogLevel cfg.file.level = false →
          logger.fileCore.threshold = zapInfoLevel)
        ∧ (validateLogLevel cfg.console.level = false →
          logger.consoleCore.threshold = zapInfoLevel) := by
  constructor
  · constructor
    · rintro ⟨l, hl⟩
      cases mk with
      | error e => simp [New] at hl
      | ok u => cases u; rfl
    · rintro rfl
      exact ⟨_, rfl⟩
  · intro logger h
    simp only [New, Except.ok.injEq] at h
    subst h
    exact ⟨fun hv => logLevelMapGet_of_invalid _ hv,
           fun hv => logLevelMapGet_of_invalid _ hv⟩

/-- Witness for C9: construction succeeds for a config whose two level
strings (`"trace"`, `"Info"`) are outside the vocabulary, and both
thresholds land on info. -/
theorem new_error_iff_mkdir_fails_witness :
    ∃ logger, New (.ok ()) ⟨⟨"trace", "/var/log/app"⟩, ⟨"Info"⟩⟩ = .ok logger
      ∧ logger.fileCore.threshold = zapInfoLevel
      ∧ logger.consoleCore.threshold = zapInfoLevel := by
  refine ⟨_, rfl, ?_, ?_⟩
  · exact ((new_error_iff_mkdir_fails (.ok ()) _).2 _ rfl).1 (by decide)
  · exact ((new_error_iff_mkdir_fails (.ok ()) _).2 _ rfl).2 (by decide)

/-- C10: the console level encoder is safe exactly on the seven vocabulary
levels: there the color lookup yields a color and the `[LEVEL]` tag is
appended; for any other zapcore level the Go map read yields the nil
pointer and the `Sprintf` receiver dereference would panic (the `none`
result). -/
theorem consoleEncodeLevel_safe_iff_vocabulary (l : Int) :
    (l ∈ vocabularyLevels →
      ∃ c, colorMapGet l = some c
        ∧ consoleEncodeLevel l = some (c, "[" ++ capitalString l ++ "]"))
    ∧ (l ∉ vocabularyLevels → colorMapGet l = none ∧ consoleEncodeLevel l = none) := by
  constructor
  · intro hl
    fin_cases hl <;> exact ⟨_, rfl, rfl⟩
  · intro hl
    simp only [vocabularyLevels, zapDebugLevel, zapInfoLevel, zapWarnLevel, zapErrorLevel,
      zapDPanicLevel, zapPanicLevel, zapFatalLevel, List.mem_cons, List.not_mem_nil,
      or_false, not_or] at hl
    obtain ⟨h1, h2, h3, h4, h5, h6, h7⟩ := hl
    have e1 : (l == (-1 : Int)) = false := beq_eq_false_iff_ne.mpr h1
    have e2 : (l == (0 : Int)) = false := beq_eq_false_iff_ne.mpr h2
    have e3 : (l == (1 : Int)) = false := beq_eq_false_iff_ne.mpr h3
    have e4 : (l == (2 : Int)) = false := beq_eq_false_iff_ne.mpr h4
    have e5 : (l == (3 : Int)) = false := beq_eq_false_iff_ne.mpr h5
    have e6 : (l == (4 : Int)) = false := beq_eq_false_iff_ne.mpr h6
    have e7 : (l == (5 : Int)) = false := beq_eq_false_iff_ne.mpr h7
    have hc : colorMapGet l = none := by
      simp [colorMapGet, colorMap, List.lookup, zapDebugLevel, zapInfoLevel, zapWarnLevel,
        zapErrorLevel, zapDPanicLevel, zapPanicLevel, zapFatalLevel, e1, e2, e3, e4, e5, e6, e7]
    exact ⟨hc, by simp [consoleEncodeLevel, hc]⟩

/-! ## The file-sink JSON round-trip (C6) -/

theorem data_mk (l : List Char) : (String.mk l).data = l := rfl

theorem dataLevelKey : ("\x7b\"level\":" : String).data
    = [Char.ofNat 123, '"', 'l', 'e', 'v', 'e', 'l', '"', ':'] := rfl

theorem dataLevelKeyQ : ("\x7b\"level\":\"" : String).data
    = [Char.ofNat 123, '"', 'l', 'e', 'v', 'e', 'l', '"', ':', '"'] := rfl

theorem dataQuote : ("\"" : String).data = ['"'] := rfl

theorem dataTsKey : (",\"ts\":" : String).data = [',', '"', 't', 's', '"', ':'] := rfl

theorem dataCallerKey : (",\"caller\":" : String).data
    = [',', '"', 'c', 'a', 'l', 'l', 'e', 'r', '"', ':'] := rfl

theorem dataCallerKeyQ : (",\"caller\":\"" : String).data
    = [',', '"', 'c', 'a', 'l', 'l', 'e', 'r', '"', ':', '"'] := rfl

theorem dataCallerKeyTail : ("\"caller\":\"" : String).data
    = ['"', 'c', 'a', 'l', 'l', 'e', 'r', '"', ':', '"'] := rfl

theorem dataMsgKey : (",\"msg\":" : String).data
    = [',', '"', 'm', 's', 'g', '"', ':'] := rfl

theorem dataMsgKeyQ : (",\"msg\":\"" : String).data
    = [',', '"', 'm', 's', 'g', '"', ':', '"'] := rfl

theorem dataClose : ("\x7d" : String).data = [Char.ofNat 125] := rfl

theorem dataCloseNl : ("\x7d\n" : String).data = [Char.ofNat 125, '\n'] := rfl

theorem dataNl : ("\n" : String).data = ['\n'] := rfl

theorem unhex_hexDigit (n : Nat) (h : n < 16) : unhex (hexDigit n) = some n := by
  interval_cases n <;> rfl

theorem pjs_quote (rest : List Char) :
    parseJSONString ('"' :: rest) = some ([], rest) := by
  rw [parseJSONString.eq_def]; simp

theorem pjs_esc_quote (rest : List Char) : parseJSONString ('\\' :: '"' :: rest)
    = (parseJSONString rest).map fun p => ('"' :: p.1, p.2) := by
  rw [parseJSONString.eq_def]; simp

theorem pjs_esc_bs (rest : List Char) : parseJSONString ('\\' :: '\\' :: rest)
    = (parseJSONString rest).map fun p => ('\\' :: p.1, p.2) := by
  rw [parseJSONString.eq_def]; simp

theorem pjs_esc_n (rest : List Char) : parseJSONString ('\\' :: 'n' :: rest)
    = (parseJSONString rest).map fun p => ('\n' :: p.1, p.2) := by
  rw [parseJSONString.eq_def]; simp

theorem pjs_esc_r (rest : List Char) : parseJSONString ('\\' :: 'r' :: rest)
    = (parseJSONString rest).map fun p => ('\r' :: p.1, p.2) := by
  rw [parseJSONString.eq_def]; simp

theorem pjs_esc_t (rest : List Char) : parseJSONString ('\\' :: 't' :: rest)
    = (parseJSONString rest).map fun p => ('\t' :: p.1, p.2) := by
  rw [parseJSONString.eq_def]; simp

theorem pjs_raw (c : Char) (rest : List Char) (h1 : ¬c = '"') (h2 : ¬c = '\\') :
    parseJSONString (c :: rest) = (parseJSONString rest).map fun p => (c :: p.1, p.2) := by
  rw [parseJSONString.eq_def]; simp [h1, h2]

theorem pjs_unicode (h3 h4 : Char) (T : List Char) :
    parseJSONString ('\\' :: 'u' :: '0' :: '0' :: h3 :: h4 :: T)
      = match unhex h3, unhex h4 with
        | some x, some d => (parseJSONString T).map (fun p : List Char × List Char =>
            (Char.ofNat (x * 16 + d) :: p.1, p.2))
        | _, _ => none := by
  rw [parseJSONString.eq_def]
  have h0 : unhex '0' = some 0 := by rfl
  simp [h0]
  cases unhex h3 <;> cases unhex h4 <;> simp

/-- Parsing the escaped form of any string, followed by the closing quote,
recovers the string exactly. -/
theorem parseJSONString_escape (s rest : List Char) :
    parseJSONString ((s.map escapeChar).flatten ++ '"' :: rest) = some (s, rest) := by
  induction s with
  | nil => simpa using pjs_quote rest
  | cons c cs ih =>
    simp only [List.map_cons, List.flatten_cons, List.append_assoc]
    by_cases h1 : c = '"'
    · subst h1
      simp [escapeChar, pjs_esc_quote, ih]
    · by_cases h2 : c = '\\'
      · subst h2
        simp [escapeChar, pjs_esc_bs, ih]
      · by_cases h3 : c = '\n'
        · subst h3
          simp [escapeChar, pjs_esc_n, ih]
        · by_cases h4 : c = '\r'
          · subst h4
            simp [escapeChar, pjs_esc_r, ih]
          · by_cases h5 : c = '\t'
            · subst h5
              simp [escapeChar, pjs_esc_t, ih]
            · by_cases h6 : c.toNat < 32
              · have hhi : c.toNat / 16 < 16 := by omega
                have hlo : c.toNat % 16 < 16 := by omega
                have hm : c.toNat / 16 * 16 + c.toNat % 16 = c.toNat := by omega
                simp only [escapeChar, if_neg h1, if_neg h2, if_neg h3, if_neg h4,
                  if_neg h5, if_pos h6, List.cons_append, List.nil_append]
                rw [pjs_unicode, unhex_hexDigit _ hhi, unhex_hexDigit _ hlo]
                simp [ih, hm, Char.ofNat_toNat]
              · simp only [escapeChar, if_neg h1, if_neg h2, if_neg h3, if_neg h4,
                  if_neg h5, if_neg h6, List.cons_append, List.nil_append]
                rw [pjs_raw c _ h1 h2]
                simp [ih]

/-- Matching the expected literal returns exactly what follows it. -/
theorem expect_append (L rest : List Char) : expect L (L ++ rest) = some rest := by
  induction L with
  | nil => rfl
  | cons p ps ih => simp [expect, ih]

theorem expect_self (L : List Char) : expect L L = some [] := by
  simpa using expect_append L []

theorem takeWhile_numeral_comma (t u : List Char) (ht : ∀ c ∈ t, numeralChar c = true) :
    (t ++ ',' :: u).takeWhile numeralChar = t := by
  induction t with
  | nil => rfl
  | cons c cs ih =>
    have hc : numeralChar c = true := ht c (List.mem_cons_self c cs)
    simp [List.takeWhile_cons, hc, ih fun x hx => ht x (List.mem_cons_of_mem c hx)]

theorem dropWhile_numeral_comma (t u : List Char) (ht : ∀ c ∈ t, numeralChar c = true) :
    (t ++ ',' :: u).dropWhile numeralChar = ',' :: u := by
  induction t with
  | nil => rfl
  | cons c cs ih =>
    have hc : numeralChar c = true := ht c (List.mem_cons_self c cs)
    simp [List.dropWhile_cons, hc, ih fun x hx => ht x (List.mem_cons_of_mem c hx)]

/-- The number token reader returns the timestamp text exactly, stopping at
the comma that opens the next key. -/
theorem readNumber_comma (t u : List Char) (ht : ∀ c ∈ t, numeralChar c = true) :
    readNumber (t ++ ',' :: u) = (t, ',' :: u) := by
  simp [readNumber, takeWhile_numeral_comma t u ht, dropWhile_numeral_comma t u ht]

/-- The lowercase level name written by the encoder maps back to the exact
level value through the level map. -/
theorem logLevelMapLookup_levelString (l : Int) (h : l ∈ vocabularyLevels) :
    logLevelMapLookup (levelString l) = some l := by
  fin_cases h <;> rfl

theorem hexDigit_ne_newline (n : Nat) (h : n < 16) : hexDigit n ≠ '\n' := by
  interval_cases n <;> decide

theorem newline_not_mem_escapeChar (c : Char) : ('\n' : Char) ∉ escapeChar c := by
  intro hmem
  unfold escapeChar at hmem
  split_ifs at hmem with h1 h2 h3 h4 h5 h6
  · simp at hmem
  · simp at hmem
  · simp at hmem
  · simp at hmem
  · simp at hmem
  · simp only [List.mem_cons, List.not_mem_nil, or_false] at hmem
    rcases hmem with h | h | h | h | h | h
    · exact absurd h (by decide)
    · exact absurd h (by decide)
    · exact absurd h (by decide)
    · exact absurd h (by decide)
    · exact hexDigit_ne_newline (c.toNat / 16) (by omega) h.symm
    · exact hexDigit_ne_newline (c.toNat % 16) (by omega) h.symm
  · simp only [List.mem_cons, List.not_mem_nil, or_false] at hmem
    exact h3 hmem.symm

theorem newline_not_mem_escapeString (s : String) :
    ('\n' : Char) ∉ escapeString s := by
  intro h
  unfold escapeString at h
  rw [List.mem_flatten] at h
  obtain ⟨l, hl, hc⟩ := h
  rw [List.mem_map] at hl
  obtain ⟨c, _, rfl⟩ := hl
  exact newline_not_mem_escapeChar c hc

/-- C6: every file-sink record targets `server.log` inside the configured
directory through the JSON encoder, is exactly one line (the line break
closes the record and cannot occur inside it), and each of the four fields
— level, timestamp text, caller, message — parses back from the JSON text
to the original value exactly. -/
theorem fileRecord_roundtrip (cfg : LoggerConfig) (logger : ZapLogger)
    (e : FileLogEntry)
    (hnew : New (.ok ()) cfg = .ok logger)
    (hlvl : e.level ∈ vocabularyLevels)
    (hts : ∀ c ∈ e.tsText.data, numeralChar c = true) :
    logger.fileCore.sink = .rotatedFile (pathJoin cfg.file.path "server.log")
    ∧ logger.fileCore.encoder = .json
    ∧ parseFileRecord (jsonEncodeEntry e)
        = some (levelString e.level, e.tsText, e.caller, e.msg)
    ∧ logLevelMapLookup (levelString e.level) = some e.level
    ∧ jsonEncodeEntry e = jsonEntryBody e ++ "\n"
    ∧ ('\n' : Char) ∉ (jsonEntryBody e).data := by
  simp only [New, Except.ok.injEq] at hnew
  subst hnew
  refine ⟨rfl, rfl, ?_, logLevelMapLookup_levelString _ hlvl, rfl, ?_⟩
  · have hdata : (jsonEncodeEntry e).data
        = "\x7b\"level\":\"".data
          ++ (((levelString e.level).data.map escapeChar).flatten
          ++ '"' :: (",\"ts\":".data
          ++ (e.tsText.data
          ++ ',' :: ("\"caller\":\"".data
          ++ ((e.caller.data.map escapeChar).flatten
          ++ '"' :: (",\"msg\":\"".data
          ++ ((e.msg.data.map escapeChar).flatten
          ++ '"' :: "\x7d\n".data))))))) := by
      simp [jsonEncodeEntry, jsonEntryBody, jsonQuoted, escapeString, String.data_append,
        data_mk, dataLevelKey, dataLevelKeyQ, dataQuote, dataTsKey, dataCallerKey,
        dataCallerKeyQ, dataCallerKeyTail, dataMsgKey, dataMsgKeyQ, dataClose,
        dataCloseNl, dataNl]
    have hcal : ∀ X : List Char,
        ',' :: (("\"caller\":\"" : String).data ++ X) = (",\"caller\":\"" : String).data ++ X :=
      fun _ => rfl
    unfold parseFileRecord
    rw [hdata, expect_append]
    simp only [Option.bind_some, Option.some_bind, bind, Option.bind]
    rw [parseJSONString_escape]
    simp only []
    rw [expect_append]
    simp only []
    rw [readNumber_comma _ _ hts]
    simp only []
    rw [hcal, expect_append]
    simp only []
    rw [parseJSONString_escape]
    simp only []
    rw [expect_append]
    simp only []
    rw [parseJSONString_escape]
    simp only []
    rw [expect_self]
  · have hE1 := newline_not_mem_escapeString (levelString e.level)
    have hE2 := newline_not_mem_escapeString e.caller
    have hE3 := newline_not_mem_escapeString e.msg
    have hT : ('\n' : Char) ∉ e.tsText.data := by
      intro hm
      have hn := hts _ hm
      simp [numeralChar] at hn
    intro hmem
    simp only [jsonEntryBody, jsonQuoted, String.data_append, data_mk,
      List.mem_append] at hmem
    simp [dataLevelKey, dataQuote, dataTsKey, dataCallerKey, dataMsgKey, dataClose,
      List.mem_cons, hE1, hE2, hE3, hT] at hmem

/-! ## Console rendering (C7) -/

theorem lastSlashIdx_eq_none (xs : List Char) (h : '/' ∉ xs) : lastSlashIdx xs = none := by
  induction xs with
  | nil => rfl
  | cons c cs ih =>
    have hc : ¬c = '/' := fun e => h (List.mem_cons.mpr (Or.inl e.symm))
    simp [lastSlashIdx, ih fun hm => h (List.mem_cons_of_mem c hm), hc]

theorem lastSlashIdx_append (xs ys : List Char) (i : Nat)
    (h : lastSlashIdx ys = some i) :
    lastSlashIdx (xs ++ ys) = some (xs.length + i) := by
  induction xs with
  | nil => simpa using h
  | cons c cs ih =>
    rw [List.cons_append, lastSlashIdx, ih]
    simp only [List.length_cons, Option.some.injEq]
    omega

theorem lastSlashIdx_slash_cons (cs : List Char) (h : lastSlashIdx cs = none) :
    lastSlashIdx ('/' :: cs) = some 0 := by
  simp [lastSlashIdx, h]

/-- On a path with at least two slashes and slash-free last two segments,
`TrimmedPath` keeps exactly the final `dir/file` part. -/
theorem trimmedPath_trims (P B C : List Char) (line : Nat)
    (hB : '/' ∉ B) (hC : '/' ∉ C) :
    trimmedPath (String.mk (P ++ '/' :: (B ++ '/' :: C))) line
      = String.mk (B ++ '/' :: C) ++ ":" ++ toString line := by
  have hC0 : lastSlashIdx ('/' :: C) = some 0 :=
    lastSlashIdx_slash_cons C (lastSlashIdx_eq_none C hC)
  have hBC : lastSlashIdx (B ++ '/' :: C) = some B.length := by
    simpa using lastSlashIdx_append B ('/' :: C) 0 hC0
  have hPBC : lastSlashIdx ('/' :: (B ++ '/' :: C)) = some (B.length + 1) := by
    simp [lastSlashIdx, hBC]
  have hfile : lastSlashIdx (P ++ '/' :: (B ++ '/' :: C))
      = some (P.length + (B.length + 1)) :=
    lastSlashIdx_append _ _ _ hPBC
  have htake : (P ++ '/' :: (B ++ '/' :: C)).take (P.length + (B.length + 1))
      = P ++ '/' :: B := by
    rw [List.take_append]
    simp [List.take_succ_cons, List.take_left]
  have htake2 : lastSlashIdx (P ++ '/' :: B) = some P.length := by
    simpa using lastSlashIdx_append P ('/' :: B) 0
      (lastSlashIdx_slash_cons B (lastSlashIdx_eq_none B hB))
  have hdrop : (P ++ '/' :: (B ++ '/' :: C)).drop (P.length + 1) = B ++ '/' :: C := by
    rw [List.drop_append]
    rfl
  simp [trimmedPath, data_mk, hfile, htake, htake2, hdrop]

/-- C7: the console sink renders timestamps with the RFC3339 encoder (the
output has the fixed 20-character `YYYY-MM-DDTHH:MM:SSZ` shape in UTC),
renders the call site with `TrimmedPath` — the path is cut down to its
last two segments rather than kept absolute — writes to the mutex-wrapped
standard error stream, and the handle carries `AddCaller`, so caller
metadata is captured for every record of both sinks. -/
theorem console_rendering (cfg : LoggerConfig) (logger : ZapLogger)
    (P B C : List Char) (line : Nat) (t : DateTime)
    (hnew : New (.ok ()) cfg = .ok logger)
    (hB : '/' ∉ B) (hC : '/' ∉ C) :
    logger.consoleCore.encoderConfig.timeEncoder = .rfc3339
    ∧ logger.consoleCore.encoderConfig.callerEncoder = .trimmedPath
    ∧ logger.consoleCore.sink = .stderrLocked
    ∧ logger.addCaller = true
    ∧ trimmedPath (String.mk (P ++ '/' :: (B ++ '/' :: C))) line
        = String.mk (B ++ '/' :: C) ++ ":" ++ toString line
    ∧ (rfc3339UTC t).data.length = 20
    ∧ (rfc3339UTC t).data[4]? = some '-'
    ∧ (rfc3339UTC t).data[7]? = some '-'
    ∧ (rfc3339UTC t).data[10]? = some 'T'
    ∧ (rfc3339UTC t).data[13]? = some ':'
    ∧ (rfc3339UTC t).data[16]? = some ':'
    ∧ (rfc3339UTC t).data[19]? = some 'Z' := by
  simp only [New, Except.ok.injEq] at hnew
  subst hnew
  refine ⟨rfl, rfl, rfl, rfl, trimmedPath_trims P B C line hB hC, ?_, ?_, ?_, ?_, ?_, ?_, ?_⟩
    <;> simp [rfc3339UTC, pad4, pad2, data_mk]

/-- Witness for C7: a concrete absolute source path and instant. -/
theorem console_rendering_witness :
    ∃ logger, New (.ok ()) ⟨⟨"info", "/var/log/app"⟩, ⟨"info"⟩⟩ = .ok logger
      ∧ logger.consoleCore.sink = .stderrLocked
      ∧ logger.addCaller = true
      ∧ trimmedPath "/home/user/project/pkg/file.go" 42 = "pkg/file.go:42" := by
  refine ⟨_, rfl, ?_⟩
  have h := console_rendering ⟨⟨"info", "/var/log/app"⟩, ⟨"info"⟩⟩ _
    "/home/user/project".data "pkg".data "file.go".data 42
    ⟨2026, 10, 11, 12, 30, 45⟩ rfl (by decide) (by decide)
  exact ⟨h.2.2.1, h.2.2.2.1, h.2.2.2.2.1⟩

/-- Witness for C6: a concrete entry whose message contains quotes and a
newline round-trips through the file sink's JSON record. -/
theorem fileRecord_roundtrip_witness :
    ∃ logger,
      New (.ok ()) ⟨⟨"info", "/var/log/app"⟩, ⟨"info"⟩⟩ = .ok logger
      ∧ logger.fileCore.sink = .rotatedFile "/var/log/app/server.log"
      ∧ parseFileRecord (jsonEncodeEntry
          ⟨zapInfoLevel, "1700000000.5", "pkg/file.go:42", "hello \"there\"\n"⟩)
        = some ("info", "1700000000.5", "pkg/file.go:42", "hello \"there\"\n") := by
  refine ⟨_, rfl, ?_, ?_⟩
  · exact (fileRecord_roundtrip _ _
      ⟨zapInfoLevel, "1700000000.5", "pkg/file.go:42", "hello \"there\"\n"⟩
      rfl (by decide) (by decide)).1
  · exact (fileRecord_roundtrip ⟨⟨"info", "/var/log/app"⟩, ⟨"info"⟩⟩ _
      ⟨zapInfoLevel, "1700000000.5", "pkg/file.go:42", "hello \"there\"\n"⟩
      rfl (by decide) (by decide)).2.2.1

/-! ## Serialization of the locked console stream (C8) -/

theorem flatStrings_append (a b : List String) :
    flatStrings (a ++ b) = flatStrings a ++ flatStrings b := by
  simp [flatStrings]

/-- Taking writer `i`'s next line out of the pending table only reorders
the multiset of pending lines. -/
theorem flatten_set_perm (p : List (List String)) (i : Nat) (m : String)
    (rest : List String) (h : p.get? i = some (m :: rest)) :
    p.flatten.Perm (m :: (p.set i rest).flatten) := by
  induction p generalizing i with
  | nil => simp at h
  | cons x xs ih =>
    cases i with
    | zero =>
      simp only [List.get?_cons_zero, Option.some.injEq] at h
      subst h
      simp [List.set]
    | succ n =>
      simp only [List.get?_cons_succ] at h
      have hx := ih n h
      simp only [List.set, List.flatten_cons]
      exact (hx.append_left x).trans List.perm_middle

/-- Every step preserves the stream invariant. -/
theorem consoleInv_step (orig : List String) (s t : ConsoleRun)
    (hstep : ConsoleStep s t) (hinv : ConsoleInv orig s) : ConsoleInv orig t := by
  cases hstep with
  | acquire i m rest hfree hget =>
    obtain ⟨done, hd⟩ := hinv
    rw [hfree] at hd
    obtain ⟨hout, hperm⟩ := hd
    refine ⟨done, [], by simp, by simpa using hout, ?_⟩
    exact ((flatten_set_perm s.pending i m rest hget).symm.append_left done).trans hperm
  | write i m c cs hh =>
    obtain ⟨done, hd⟩ := hinv
    rw [hh] at hd
    obtain ⟨pre, hdata, hout, hperm⟩ := hd
    exact ⟨done, pre ++ [c], by simpa [List.append_assoc] using hdata,
      by simp [hout, List.append_assoc], hperm⟩
  | release i m hh =>
    obtain ⟨done, hd⟩ := hinv
    rw [hh] at hd
    obtain ⟨pre, hdata, hout, hperm⟩ := hd
    have hpre : pre = m.data := by simpa using hdata.symm
    subst hpre
    refine ⟨done ++ [m], ?_, ?_⟩
    · simp [flatStrings_append, flatStrings, hout]
    · simpa [List.append_assoc] using hperm

/-- The invariant transports along any number of steps. -/
theorem consoleInv_reachable (orig : List String) (s t : ConsoleRun)
    (h : ConsoleReachable s t) (hinv : ConsoleInv orig s) : ConsoleInv orig t := by
  induction h with
  | refl => exact hinv
  | tail _ hstep ih => exact consoleInv_step orig _ _ hstep ih

theorem sum_map_eq_length (L : List String) (f : String → Nat)
    (h : ∀ x ∈ L, f x = 1) : (L.map f).sum = L.length := by
  induction L with
  | nil => rfl
  | cons x xs ih =>
    simp [h x (List.mem_cons_self x xs),
      ih fun y hy => h y (List.mem_cons_of_mem x hy)]
    omega

theorem flatStrings_count (L : List String) (c : Char) :
    (flatStrings L).count c = (L.map fun m => m.data.count c).sum := by
  induction L with
  | nil => rfl
  | cons x xs ih =>
    rw [show flatStrings (x :: xs) = x.data ++ flatStrings xs from rfl,
      List.count_append, ih]
    simp

/-- C8: the console sink writes through the mutex-wrapped standard error
stream, and under that mutex every complete concurrent run — any number of
writers, any schedule — produces an output that is exactly a concatenation
of the original lines, one per event, none lost, duplicated or
interleaved; when each line contains exactly one line break, the output
has exactly one line per event. -/
theorem console_lock_serializes (cfg : LoggerConfig) (logger : ZapLogger)
    (msgs : List (List String)) (s : ConsoleRun)
    (hnew : New (.ok ()) cfg = .ok logger)
    (hreach : ConsoleReachable ⟨msgs, none, []⟩ s)
    (hfin : s.holding = none) (hdone : s.pending.flatten = []) :
    logger.consoleCore.sink = .stderrLocked
    ∧ ∃ done : List String,
        s.output = flatStrings done
        ∧ done.Perm msgs.flatten
        ∧ ((∀ m ∈ msgs.flatten, m.data.count '\n' = 1) →
            s.output.count '\n' = msgs.flatten.length) := by
  simp only [New, Except.ok.injEq] at hnew
  subst hnew
  refine ⟨rfl, ?_⟩
  have hinv0 : ConsoleInv msgs.flatten ⟨msgs, none, []⟩ :=
    ⟨[], rfl, by simp⟩
  have hinv := consoleInv_reachable _ _ _ hreach hinv0
  obtain ⟨done, hd⟩ := hinv
  rw [hfin] at hd
  obtain ⟨hout, hperm⟩ := hd
  rw [hdone, List.append_nil] at hperm
  refine ⟨done, hout, hperm, fun hone => ?_⟩
  rw [hout, flatStrings_count]
  calc (done.map fun m => m.data.count '\n').sum
      = (msgs.flatten.map fun m => m.data.count '\n').sum :=
        (hperm.map fun m => m.data.count '\n').sum_eq
    _ = msgs.flatten.length := sum_map_eq_length _ _ hone

/-- Witness for C8: two writers with one line each; an explicit schedule
acquires, flushes character by character and releases twice, and the
output is the two intact lines. -/
theorem console_lock_serializes_witness :
    ∃ logger, New (.ok ()) ⟨⟨"info", "/var/log/app"⟩, ⟨"info"⟩⟩ = .ok logger
      ∧ logger.consoleCore.sink = .stderrLocked
      ∧ ∃ done : List String,
          (['a', '\n', 'b', '\n'] : List Char) = flatStrings done
          ∧ done.Perm ["a\n", "b\n"]
          ∧ (['a', '\n', 'b', '\n'] : List Char).count '\n' = 2 := by
  have hr : ConsoleReachable ⟨[["a\n"], ["b\n"]], none, []⟩
      ⟨[[], []], none, ['a', '\n', 'b', '\n']⟩ := by
    refine .head (ConsoleStep.acquire _ 0 "a\n" [] rfl rfl) ?_
    refine .head (ConsoleStep.write _ 0 "a\n" 'a' ['\n'] rfl) ?_
    refine .head (ConsoleStep.write _ 0 "a\n" '\n' [] rfl) ?_
    refine .head (ConsoleStep.release _ 0 "a\n" rfl) ?_
    refine .head (ConsoleStep.acquire _ 1 "b\n" [] rfl rfl) ?_
    refine .head (ConsoleStep.write _ 1 "b\n" 'b' ['\n'] rfl) ?_
    refine .head (ConsoleStep.write _ 1 "b\n" '\n' [] rfl) ?_
    refine .head (ConsoleStep.release _ 1 "b\n" rfl) ?_
    exact .refl
  have h := console_lock_serializes ⟨⟨"info", "/var/log/app"⟩, ⟨"info"⟩⟩ _
    [["a\n"], ["b\n"]] _ rfl hr rfl rfl
  obtain ⟨hsink, done, h1, h2, h3⟩ := h
  exact ⟨_, rfl, hsink, done, h1, h2, h3 (by decide)⟩

/-! ## Sink failure isolation (C4) -/

/-- On every vocabulary level the console level encoder succeeds. -/
theorem consoleEncodeLevel_vocab_isSome (l : Int) (h : l ∈ vocabularyLevels) :
    (consoleEncodeLevel l).isSome := by
  fin_cases h <;> rfl

/-- C4: a log call on the constructed handle never panics and never
surfaces an error at the call site, for any vocabulary-level event and any
health of either sink's writer; and the console writes of a whole call
sequence do not depend on the file writer's health — a file write failure
prevents neither the same nor any subsequent console write. -/
theorem sink_failures_isolated (cfg : LoggerConfig) (logger : ZapLogger)
    (fh ch : Bool) (lvl : Int)
    (_hnew : New (.ok ()) cfg = .ok logger)
    (hlvl : lvl ∈ vocabularyLevels) :
    (logCall logger fh ch lvl).panicked = false
    ∧ (logCall logger fh ch lvl).callerVisibleError = none
    ∧ (logCall logger false ch lvl).consoleWrote
        = (logCall logger true ch lvl).consoleWrote
    ∧ ∀ (events : List Int) (fh1 fh2 : Nat → Bool),
        consoleWrites logger fh1 events = consoleWrites logger fh2 events := by
  refine ⟨?_, rfl, rfl, ?_⟩
  · have hs := consoleEncodeLevel_vocab_isSome lvl hlvl
    cases hx : consoleEncodeLevel lvl with
    | none => rw [hx] at hs; simp at hs
    | some v => simp [logCall, hx]
  · intro events fh1 fh2
    simp [consoleWrites, logCall]

/-- Witness for C4: with the file writer broken from the start, an info
event still reaches the console and the call neither panics nor errors. -/
theorem sink_failures_isolated_witness :
    ∃ logger, New (.ok ()) ⟨⟨"info", "/var/log/app"⟩, ⟨"info"⟩⟩ = .ok logger
      ∧ (logCall logger false true zapInfoLevel).panicked = false
      ∧ (logCall logger false true zapInfoLevel).callerVisibleError = none
      ∧ (logCall logger false true zapInfoLevel).consoleWrote = true
      ∧ (logCall logger false true zapInfoLevel).fileWrote = false := by
  refine ⟨_, rfl, ?_, ?_, rfl, rfl⟩
  · exact (sink_failures_isolated _ _ false true zapInfoLevel rfl (by decide)).1
  · exact (sink_failures_isolated ⟨⟨"info", "/var/log/app"⟩, ⟨"info"⟩⟩ _
      false true zapInfoLevel rfl (by decide)).2.1

/-- Witness for C10: at the in-vocabulary level debug the encoder succeeds,
at the out-of-vocabulary level `6` the lookup is nil and encoding would
panic. -/
theorem consoleEncodeLevel_safe_iff_vocabulary_witness :
    (∃ c, colorMapGet zapDebugLevel = some c
      ∧ consoleEncodeLevel zapDebugLevel
          = some (c, "[" ++ capitalString zapDebugLevel ++ "]"))
    ∧ colorMapGet 6 = none ∧ consoleEncodeLevel 6 = none :=
  ⟨(consoleEncodeLevel_safe_iff_vocabulary zapDebugLevel).1 (by decide),
   (consoleEncodeLevel_safe_iff_vocabulary 6).2 (by decide)⟩

end Loggerfx
